import Mathlib

/-
Shallow embedding of src/excelproc.py (casimiri/dataproc2).

Conventions of the embedding:
  - Python strings are modelled as Lean `String` / `List Char`.
  - A pandas cell value is `Cell`: `na` (NaN/None), `cstr` (a str),
    `cint`/`cbool` (non-string scalars; `cint` also stands for any other
    non-string value where only "not a str" matters).
  - The regex character classes are modelled over ASCII: the digit class of
    a Python pattern is [0-9], the whitespace class is the six ASCII
    whitespace characters, [A-Z]/[a-z] are the ASCII ranges (the source's
    data is ASCII; Python's extra Unicode members of the classes are out of
    scope of this embedding).
  - The three regex operations used by the source
    (re.findall of the numbered-variety pattern, re.split of the
    period-marker pattern, re.findall of the naive binomial pattern, and
    re.search of a lazy bracketed group) are compiled to deterministic
    recursive matchers.  Greedy/lazy quantifier backtracking is resolved
    statically where the pattern admits a unique outcome, and is kept as an
    explicit search (`tryW`) where it does not; the derivation is recorded
    in the comments next to each matcher.
  - Exceptions of the external service are modelled by `ServiceReply.raises`;
    every Lean function is total, which models the source's guarantee that
    its own exceptions are caught where the claims say they are.
-/

namespace ExcelProc

/-- ASCII whitespace recognised by Python's bare `str.strip` and by the
regex class of whitespace. -/
def isSpaceChar (c : Char) : Bool :=
  c = ' ' || c = '\t' || c = '\n' || c = '\r' || c = '\x0b' || c = '\x0c'

/-- Python `str.strip()` on a list of characters. -/
def pyStripL (t : List Char) : List Char :=
  ((t.dropWhile isSpaceChar).reverse.dropWhile isSpaceChar).reverse

def toStr (t : List Char) : String := String.mk t

/-- Python `str.strip()`. -/
def pyStrip (s : String) : String := toStr (pyStripL s.data)

/-- Python `str.rstrip('.')`. -/
def rstripDots (t : List Char) : List Char :=
  (t.reverse.dropWhile (fun c => c = '.')).reverse

def dropWS (t : List Char) : List Char := t.dropWhile isSpaceChar

def takeDigits (t : List Char) : List Char := t.takeWhile Char.isDigit

/-
Pattern A  --  excelproc.py line 88:
    re.findall of  ( digits '.' ws* nondigits-lazy ) followed by a
    lookahead for ( ws* digits '.' ) or end of input.

The digit-run of the pattern is effectively possessive: taking fewer
digits would place a digit where the literal period is required, so the
run is the maximal one.  The starred whitespace before the lazy part does
backtrack (largest first), which `tryW` performs explicitly.  Inside the
lookahead the starred whitespace cannot backtrack usefully (a whitespace
character is never a digit), so the lookahead is: skip maximal whitespace,
then require a nonempty digit run followed by a period; the second
alternative of the lookahead is end of input at the current position.
-/

/-- The lookahead of pattern A at a suffix. -/
def lookA (t : List Char) : Bool :=
  (let t1 := dropWS t
   let ds := takeDigits t1
   decide (ds ≠ []) && ((t1.drop ds.length).head? == some '.'))
  || t.isEmpty

/-- The lazy nondigit part of pattern A: it has consumed `n` characters and
stands before suffix `t`; it first tests the lookahead, and only on failure
consumes one more character, which must not be a digit. -/
def lazyGo (n : Nat) (t : List Char) : Option Nat :=
  if lookA t then some n
  else
    match t with
    | [] => none
    | c :: rest => if c.isDigit then none else lazyGo (n + 1) rest

/-- The lazy nondigit part of pattern A must consume at least one
(non-digit) character before the lookahead is first tested. -/
def lazyND (t : List Char) : Option Nat :=
  match t with
  | [] => none
  | c :: rest => if c.isDigit then none else lazyGo 1 rest

/-- Greedy backtracking of the starred whitespace of pattern A: try to let
it consume `w` characters, largest first.  `t` is the suffix right after
the matched period. -/
def tryW (t : List Char) : Nat → Option Nat
  | 0 => lazyND t
  | w + 1 =>
    match lazyND (t.drop (w + 1)) with
    | some n => some (w + 1 + n)
    | none => tryW t w

/-- One attempt of pattern A at a suffix: the length of the match starting
here, if any. -/
def matchA (s : List Char) : Option Nat :=
  let ds := takeDigits s
  if ds = [] then none
  else
    match s.drop ds.length with
    | '.' :: t =>
      match tryW t (t.takeWhile isSpaceChar).length with
      | some n => some (ds.length + 1 + n)
      | none => none
    | _ => none

/-- `re.findall` scan of pattern A: leftmost match, continue after its end.
The fuel is the length of the input; every step advances by at least one
character. -/
def findAGo : Nat → List Char → List (List Char)
  | 0, _ => []
  | _ + 1, [] => []
  | fuel + 1, c :: rest =>
    match matchA (c :: rest) with
    | some n => (c :: rest).take n :: findAGo fuel ((c :: rest).drop n)
    | none => findAGo fuel rest

def findA (t : List Char) : List (List Char) := findAGo t.length t

/-- excelproc.py lines 88-97: the primary numbered-variety rule.  The
source returns the cleaned list whenever more than one raw match was
found; its caller then tests the returned value for truthiness. -/
def primaryRule (t : List Char) : Option (List String) :=
  let ms := findA t
  if ms.length > 1 then
    some (ms.filterMap (fun m =>
      let c := rstripDots (pyStripL m)
      if c = [] then none else some (toStr c)))
  else none

/-
Pattern B  --  excelproc.py line 100:
    re.split at  '.' ws+ ( digits '.' )  with the parenthesised marker
    captured into the result list.

Both runs of the pattern are effectively possessive: shortening the
whitespace run would place a whitespace character where a digit is
required, and shortening the digit run would place a digit where the
closing period is required.
-/

/-- One attempt of pattern B at a suffix: the captured marker and the
length of the match, if any. -/
def matchB : List Char → Option (List Char × Nat)
  | '.' :: t =>
    let ws := t.takeWhile isSpaceChar
    if ws = [] then none
    else
      let t2 := t.drop ws.length
      let ds := takeDigits t2
      if ds = [] then none
      else
        match t2.drop ds.length with
        | '.' :: _ => some (ds ++ ['.'], 1 + ws.length + ds.length + 1)
        | _ => none
  | _ => none

/-- `re.split` scan of pattern B, producing Python's parts list
[piece, marker, piece, marker, ..., piece]. -/
def splitBGo : Nat → List Char → List Char → List (List Char)
  | 0, cur, s => [cur ++ s]
  | _ + 1, cur, [] => [cur]
  | fuel + 1, cur, c :: rest =>
    match matchB (c :: rest) with
    | some gn => cur :: gn.1 :: splitBGo fuel [] ((c :: rest).drop gn.2)
    | none => splitBGo fuel (cur ++ [c]) rest

def splitB (t : List Char) : List (List Char) := splitBGo t.length [] t

/-- The marker/text pairs of the source's stride-2 loop over the parts
list (excelproc.py lines 111-116); a trailing unpaired entry is skipped,
as the bounds check of the source does. -/
def pairUp : List (List Char) → List (List Char × List Char)
  | g :: p :: rest => (g, p) :: pairUp rest
  | _ => []

/-- excelproc.py lines 100-119: the secondary (split-based) variety rule. -/
def secondaryRule (t : List Char) : Option (List String) :=
  match splitB t with
  | [] => none
  | p0 :: rest =>
    if rest = [] then none
    else
      let f := pyStripL p0
      let base := if f = [] then [] else [toStr f]
      let vs := base ++ (pairUp rest).filterMap (fun gp =>
        let n := pyStripL gp.2
        if n = [] then none else some (toStr (gp.1 ++ [' '] ++ n)))
      if vs.length > 1 then some vs else none

/-- excelproc.py lines 86-119: `extract_numbered_varieties`.  `none`
models Python's None return. -/
def extract_numbered_varieties (t : List Char) : Option (List String) :=
  match primaryRule t with
  | some l => some l
  | none => secondaryRule t

/-- Python truthiness of the value returned by
`extract_numbered_varieties` (None and the empty list are falsy). -/
def truthy : Option (List String) → Bool
  | some (_ :: _) => true
  | _ => false

/-- A pandas cell value. -/
inductive Cell where
  | na
  | cstr (s : String)
  | cint (n : Int)
  | cbool (b : Bool)
deriving DecidableEq

def Cell.isStr : Cell → Bool
  | Cell.cstr _ => true
  | _ => false

/-- Python `text.split(':', 1)[1]`: everything after the first colon. -/
def colonTail : List Char → List Char
  | [] => []
  | c :: rest => if c = ':' then rest else colonTail rest

/-- excelproc.py lines 76-137: `parse_varieties_with_regex`.  Non-string
and NaN cells pass through as singletons; otherwise the text is stripped;
if it contains a colon the extractor runs on the stripped part after the
first colon, and a truthy result is returned; otherwise (including when
the after-colon extraction was falsy) the extractor runs on the whole
stripped text; if that too is falsy the stripped text is the single
fragment. -/
def parse_varieties_with_regex (v : Cell) : List Cell :=
  match v with
  | Cell.cstr s =>
    let t := pyStripL s.data
    let fromColon :=
      if t.contains ':' then extract_numbered_varieties (pyStripL (colonTail t))
      else none
    match fromColon with
    | some (a :: as) => (a :: as).map Cell.cstr
    | _ =>
      match extract_numbered_varieties t with
      | some (a :: as) => (a :: as).map Cell.cstr
      | _ => [Cell.cstr (toStr t)]
  | c => [c]

/-
Pattern C  --  excelproc.py line 286:
    re.findall of  word-boundary, one uppercase letter, lowercase run,
    whitespace run, lowercase run, word-boundary.

All three runs are effectively possessive: a shorter lowercase run ends on
a lowercase letter where whitespace (or a non-word boundary) is required,
and a shorter whitespace run ends on whitespace where a lowercase letter
is required.  The leading boundary only needs the wordness of the previous
character, which the scanner threads through. -/

def isWordChar (c : Char) : Bool := c.isAlpha || c.isDigit || c = '_'

/-- One attempt of pattern C at a suffix; `prevWord` is the wordness of
the character before the suffix (false at the start of the input). -/
def matchBinomAt (prevWord : Bool) (s : List Char) : Option Nat :=
  match s with
  | c :: rest =>
    if prevWord then none
    else if c.isUpper then
      let low1 := rest.takeWhile Char.isLower
      if low1 = [] then none
      else
        let r1 := rest.drop low1.length
        let ws := r1.takeWhile isSpaceChar
        if ws = [] then none
        else
          let r2 := r1.drop ws.length
          let low2 := r2.takeWhile Char.isLower
          if low2 = [] then none
          else
            match r2.drop low2.length with
            | [] => some (1 + low1.length + ws.length + low2.length)
            | d :: _ =>
              if isWordChar d then none
              else some (1 + low1.length + ws.length + low2.length)
    else none
  | [] => none

/-- `re.findall` scan of pattern C. -/
def findBinomGo : Nat → Bool → List Char → List (List Char)
  | 0, _, _ => []
  | _ + 1, _, [] => []
  | fuel + 1, pw, c :: rest =>
    match matchBinomAt pw (c :: rest) with
    | some n => (c :: rest).take n :: findBinomGo fuel true ((c :: rest).drop n)
    | none => findBinomGo fuel (isWordChar c) rest

def findBinom (t : List Char) : List (List Char) := findBinomGo t.length false t

/-- Python `str.split(sep)` for a one-character separator. -/
def splitOnChar (sep : Char) : List Char → List (List Char)
  | [] => [[]]
  | c :: rest =>
    if c = sep then [] :: splitOnChar sep rest
    else
      match splitOnChar sep rest with
      | p :: ps => (c :: p) :: ps
      | [] => [[c]]

/-- excelproc.py lines 282-303: the binomial-pattern part of
`split_latin_species_fallback` (reached when the text has no comma). -/
def binomSplit (t : List Char) (sl : List String) : List Cell :=
  let ms := (findBinom t).map toStr
  if ms.length > 1 then
    let valid := ms.filter (fun m => sl.contains m)
    if valid.length > 1 then valid.map Cell.cstr
    else ms.map Cell.cstr
  else [Cell.cstr (toStr t)]

/-- excelproc.py lines 258-303: `split_latin_species_fallback`. -/
def split_latin_species_fallback (v : Cell) (sl : List String) : List Cell :=
  match v with
  | Cell.cstr s =>
    let t := pyStripL s.data
    if t = [] then [Cell.cstr (toStr t)]
    else if t.contains ',' then
      let ps := (splitOnChar ',' t).map (fun p => toStr (pyStripL p))
      if ps.length > 1 then ps.map Cell.cstr
      else binomSplit t sl
    else binomSplit t sl
  | c => [c]

/-
A fragment of json.loads, large enough for the replies the claims are
about: a toplevel JSON string, integer, boolean, null, or a flat array of
those.  Floats, objects, nested arrays and unicode escapes are outside the
modelled fragment (the decoder rejects them).
-/

inductive JAtom where
  | astr (s : String)
  | aint (n : Int)
  | abool (b : Bool)
  | anull
deriving DecidableEq

inductive JVal where
  | atom (a : JAtom)
  | arr (l : List JAtom)
deriving DecidableEq

/-- The two-character escape sequences of a JSON string, backslash
excluded from the argument (unicode escapes are outside the modelled
fragment). -/
def escChar (e : Char) : Option Char :=
  if e = '"' then some '"'
  else if e = '\\' then some '\\'
  else if e = '/' then some '/'
  else if e = 'n' then some '\n'
  else if e = 't' then some '\t'
  else if e = 'r' then some '\r'
  else if e = 'b' then some '\x08'
  else if e = 'f' then some '\x0c'
  else none

/-- Scan of a JSON string body after the opening quote; raw control
characters are invalid in JSON strings. -/
def parseStrGo : List Char → Option (List Char × List Char)
  | [] => none
  | '"' :: rest => some ([], rest)
  | '\\' :: rest =>
    match rest with
    | [] => none
    | e :: rest2 =>
      match escChar e with
      | some c =>
        match parseStrGo rest2 with
        | some pr => some (c :: pr.1, pr.2)
        | none => none
      | none => none
  | c :: rest =>
    if c.toNat < 32 then none
    else
      match parseStrGo rest with
      | some pr => some (c :: pr.1, pr.2)
      | none => none

def digitsToNat (ds : List Char) : Nat :=
  ds.foldl (fun n c => 10 * n + (c.toNat - 48)) 0

/-- A JSON nonnegative integer literal: no leading zeros, and not followed
by a fraction or exponent (floats are outside the modelled fragment). -/
def parseNum (t : List Char) : Option (Nat × List Char) :=
  let ds := takeDigits t
  if ds = [] then none
  else if ds.length > 1 && ds.head? == some '0' then none
  else
    match t.drop ds.length with
    | c :: r =>
      if c = '.' || c = 'e' || c = 'E' then none
      else some (digitsToNat ds, c :: r)
    | [] => some (digitsToNat ds, [])

def parseAtom (t : List Char) : Option (JAtom × List Char) :=
  match t with
  | '"' :: rest =>
    match parseStrGo rest with
    | some pr => some (JAtom.astr (toStr pr.1), pr.2)
    | none => none
  | 'n' :: 'u' :: 'l' :: 'l' :: r => some (JAtom.anull, r)
  | 't' :: 'r' :: 'u' :: 'e' :: r => some (JAtom.abool true, r)
  | 'f' :: 'a' :: 'l' :: 's' :: 'e' :: r => some (JAtom.abool false, r)
  | '-' :: rest =>
    match parseNum rest with
    | some nr => some (JAtom.aint (-(nr.1 : Int)), nr.2)
    | none => none
  | _ =>
    match parseNum t with
    | some nr => some (JAtom.aint (nr.1 : Int), nr.2)
    | none => none

def parseArrGo : Nat → List JAtom → List Char → Option (List JAtom × List Char)
  | 0, _, _ => none
  | fuel + 1, acc, t =>
    match dropWS t with
    | ']' :: r => some (acc.reverse, r)
    | ',' :: r =>
      match parseAtom (dropWS r) with
      | some ar => parseArrGo fuel (ar.1 :: acc) ar.2
      | none => none
    | _ => none

/-- The modelled fragment of Python `json.loads`; `none` models a
JSONDecodeError. -/
def jloads (t : List Char) : Option JVal :=
  match dropWS t with
  | '[' :: r =>
    match dropWS r with
    | ']' :: r2 => if dropWS r2 = [] then some (JVal.arr []) else none
    | r1 =>
      match parseAtom r1 with
      | some ar =>
        match parseArrGo t.length [ar.1] ar.2 with
        | some lr => if dropWS lr.2 = [] then some (JVal.arr lr.1) else none
        | none => none
      | none => none
  | t1 =>
    match parseAtom t1 with
    | some ar => if dropWS ar.2 = [] then some (JVal.atom ar.1) else none
    | none => none

def toCell : JAtom → Cell
  | JAtom.astr s => Cell.cstr s
  | JAtom.aint n => Cell.cint n
  | JAtom.abool b => Cell.cbool b
  | JAtom.anull => Cell.na

/-- excelproc.py line 61: re.search of a lazy bracketed group with DOTALL.
The leftmost match pairs the first opening bracket that is followed by a
closing bracket with the nearest such closing bracket; if the first opening
bracket has no closing bracket after it, no later one does either. -/
def bracketInner (t : List Char) : Option (List Char) :=
  match t.dropWhile (fun c => c ≠ '[') with
  | '[' :: rest =>
    if rest.contains ']' then some (rest.takeWhile (fun c => c ≠ ']'))
    else none
  | _ => none

/-- excelproc.py lines 51-68 (identically lines 233-250): decode a service
reply.  Direct decoding is attempted on the stripped reply; only on a
decode error is a bracketed substring extracted, rewrapped in brackets and
decoded; in both cases the decoded value must be a list of positive length.
A successfully decoded non-list (no error raised) skips the bracket path.
`none` means the reply is not a success and the caller falls back. -/
def decodeReply (r : String) : Option (List Cell) :=
  let rt := pyStripL r.data
  match jloads rt with
  | some (JVal.arr l) => if l.length > 0 then some (l.map toCell) else none
  | some _ => none
  | none =>
    match bracketInner rt with
    | some inner =>
      match jloads ('[' :: (inner ++ [']'])) with
      | some (JVal.arr l) => if l.length > 0 then some (l.map toCell) else none
      | _ => none
    | none => none

/-- A call of the external service either raises or returns a reply
string.  The claims model the service as a fixed deterministic function of
the cell text it is asked about. -/
inductive ServiceReply where
  | raises
  | reply (content : String)

/-- The OpenAI client as the per-domain reply behaviour of the service;
the species call also receives the 20-element reference sample that is
embedded in its prompt. -/
structure Client where
  varietyReply : String → ServiceReply
  speciesReply : String → List String → ServiceReply

/-- excelproc.py lines 9-74: `parse_varieties_with_openai`.  The service
call and the reply decoding sit in a try block whose except clause returns
the stripped input as a singleton, so nothing propagates. -/
def parse_varieties_with_openai (v : Cell) (svc : String → ServiceReply) : List Cell :=
  match v with
  | Cell.cstr s =>
    let s1 := pyStrip s
    if s1 = "" then [Cell.cstr s1]
    else
      match svc s1 with
      | ServiceReply.raises => [Cell.cstr s1]
      | ServiceReply.reply r =>
        match decodeReply r with
        | some l => l
        | none => [Cell.cstr s1]
  | c => [c]

/-- excelproc.py lines 176-256: `split_latin_species_with_ai`; same reply
handling, with the first 20 reference names passed into the prompt. -/
def split_latin_species_with_ai (v : Cell) (sl : List String)
    (svc : String → List String → ServiceReply) : List Cell :=
  match v with
  | Cell.cstr s =>
    let s1 := pyStrip s
    if s1 = "" then [Cell.cstr s1]
    else
      match svc s1 (sl.take 20) with
      | ServiceReply.raises => [Cell.cstr s1]
      | ServiceReply.reply r =>
        match decodeReply r with
        | some l => l
        | none => [Cell.cstr s1]
  | c => [c]

/-- excelproc.py lines 139-174: `parse_varieties`.  A configured client is
tried first; its result is kept only if it is a nonempty list different
from the singleton of the unchanged input; otherwise the regex fallback
runs on the stripped text. -/
def parse_varieties (v : Cell) (client : Option Client) : List Cell :=
  match v with
  | Cell.cstr s =>
    let s1 := pyStrip s
    if s1 = "" then [Cell.cstr s1]
    else
      match client with
      | some cl =>
        let result := parse_varieties_with_openai (Cell.cstr s1) cl.varietyReply
        if result ≠ [] ∧ result ≠ [Cell.cstr s1] then result
        else parse_varieties_with_regex (Cell.cstr s1)
      | none => parse_varieties_with_regex (Cell.cstr s1)
  | c => [c]

/-- excelproc.py lines 305-335: `split_latin_species`; same orchestration
over the species strategies. -/
def split_latin_species (v : Cell) (sl : List String) (client : Option Client) : List Cell :=
  match v with
  | Cell.cstr s =>
    let s1 := pyStrip s
    if s1 = "" then [Cell.cstr s1]
    else
      match client with
      | some cl =>
        let result := split_latin_species_with_ai (Cell.cstr s1) sl cl.speciesReply
        if result ≠ [] ∧ result ≠ [Cell.cstr s1] then result
        else split_latin_species_fallback (Cell.cstr s1) sl
      | none => split_latin_species_fallback (Cell.cstr s1) sl
  | c => [c]

/-- An input row: the cell of the species column, the cell of the variety
column, and the cells of every other column.  When the table lacks one of
the two recognised columns the corresponding field is simply never read
(the booleans of the schema guard every access, as the source's
column-membership tests do). -/
structure Row where
  sp : Cell
  va : Cell
  rest : List Cell
deriving DecidableEq

instance : Inhabited Row := ⟨⟨Cell.na, Cell.na, []⟩⟩

/-- excelproc.py lines 394-454: the body of the row loop of
`process_excel_file`, for one source row.  `hasSp`/`hasVa` are the
column-membership tests of lines 399/406/424/444; `S` and `P` are the
resolutions `split_latin_species`/`parse_varieties` with their reference
list and client fixed.  The source re-derives the variety resolution once
per species iteration from the same cell (line 425-426), which for the
fixed functions of the embedding is the same list each time. -/
def processRow (hasSp hasVa : Bool) (S P : Cell → List Cell) (r : Row) : List Row :=
  if hasSp then
    let sl := S r.sp
    if sl.length = 1 then
      if hasVa then
        let vs := P r.va
        if vs.length = 1 then [r]
        else vs.map (fun v => { r with va := v })
      else [r]
    else
      sl.flatMap (fun sp =>
        if hasVa then
          let vs := P r.va
          if vs.length = 1 then [{ r with sp := sp }]
          else vs.map (fun v => { r with sp := sp, va := v })
        else [{ r with sp := sp }])
  else
    let vs := P r.va
    if vs.length = 1 then [r]
    else vs.map (fun v => { r with va := v })

/-- The accumulated `processed_rows` list over all source rows, in source
order. -/
def processRows (hasSp hasVa : Bool) (S P : Cell → List Cell) (rows : List Row) : List Row :=
  rows.flatMap (processRow hasSp hasVa S P)

/-- The input table: which of the two recognised columns are present, and
the rows. -/
structure Table where
  hasSp : Bool
  hasVa : Bool
  rows : List Row

/-- The exceptions the outer try of `process_excel_file` distinguishes. -/
inductive PyExc where
  | fileNotFound
  | otherError

/-- excelproc.py lines 337-472: `process_excel_file`.  Reading the input
either raises (both exception arms return False, lines 467-472) or yields
a table; a table with neither recognised column returns False before the
loop (lines 381-384); otherwise the rows are expanded and written, a
write failure being caught by the same outer except.  The result is the
returned success flag together with the expanded rows. -/
def process_excel_file (input : Except PyExc Table) (writeFails : Bool)
    (S P : Cell → List Cell) : Bool × List Row :=
  match input with
  | Except.error _ => (false, [])
  | Except.ok t =>
    if t.hasSp || t.hasVa then
      let out := processRows t.hasSp t.hasVa S P t.rows
      if writeFails then (false, out) else (true, out)
    else (false, [])

/-- excelproc.py lines 474-482: `main` exits with 0 when
`process_excel_file` returned True and with 1 otherwise. -/
def mainExitCode (input : Except PyExc Table) (writeFails : Bool)
    (S P : Cell → List Cell) : Nat :=
  if (process_excel_file input writeFails S P).1 then 0 else 1

/-
Mutation model.  To settle the claim that the in-memory input is never
mutated, the row loop is re-embedded with explicit object identity: the
heap is a list of row objects, an id is an index into it, the input rows
occupy ids 0..n-1, `row.copy()` allocates a fresh id, and the item
assignments of the source are in-place writes at an id.
-/

structure PState where
  heap : List Row
  out : List Nat

def heapGet (st : PState) (i : Nat) : Row := st.heap.getD i default

/-- `row.copy()`: allocate a fresh object holding the same field values. -/
def allocRow (st : PState) (r : Row) : PState × Nat :=
  ({ st with heap := st.heap ++ [r] }, st.heap.length)

/-- `new_row[latin_species_column] = species`. -/
def setSp (st : PState) (i : Nat) (c : Cell) : PState :=
  { st with heap := st.heap.set i { heapGet st i with sp := c } }

/-- `new_row[variety_column] = variety`. -/
def setVa (st : PState) (i : Nat) (c : Cell) : PState :=
  { st with heap := st.heap.set i { heapGet st i with va := c } }

/-- `processed_rows.append(<object id>)`. -/
def emit (st : PState) (i : Nat) : PState := { st with out := st.out ++ [i] }

/-- The row loop body of excelproc.py lines 394-454 over the object heap;
`i` is the id of the source row.  Every branch that overwrites a cell
first copies the row (lines 415, 429, 435, 440, 452) and writes only to
the copy; the two no-split branches append the source row object itself
without writing. -/
def processRowSt (hasSp hasVa : Bool) (S P : Cell → List Cell) (st : PState) (i : Nat) : PState :=
  if hasSp then
    let sl := S (heapGet st i).sp
    if sl.length = 1 then
      if hasVa then
        let vs := P (heapGet st i).va
        if vs.length = 1 then emit st i
        else vs.foldl (fun acc v =>
          let aj := allocRow acc (heapGet acc i)
          emit (setVa aj.1 aj.2 v) aj.2) st
      else emit st i
    else
      sl.foldl (fun acc sp =>
        if hasVa then
          let vs := P (heapGet acc i).va
          if vs.length = 1 then
            let aj := allocRow acc (heapGet acc i)
            emit (setSp aj.1 aj.2 sp) aj.2
          else vs.foldl (fun acc2 v =>
            let aj := allocRow acc2 (heapGet acc2 i)
            emit (setVa (setSp aj.1 aj.2 sp) aj.2 v) aj.2) acc
        else
          let aj := allocRow acc (heapGet acc i)
          emit (setSp aj.1 aj.2 sp) aj.2) st
  else
    let vs := P (heapGet st i).va
    if vs.length = 1 then emit st i
    else vs.foldl (fun acc v =>
      let aj := allocRow acc (heapGet acc i)
      emit (setVa aj.1 aj.2 v) aj.2) st

def processRowsSt (hasSp hasVa : Bool) (S P : Cell → List Cell) : PState → List Nat → PState
  | st, [] => st
  | st, i :: is => processRowsSt hasSp hasVa S P (processRowSt hasSp hasVa S P st i) is

/-- The whole loop of `process_excel_file` over the object heap: the heap
starts as the input rows, the loop visits the ids of the input rows in
order. -/
def runProcess (hasSp hasVa : Bool) (S P : Cell → List Cell) (rows : List Row) : PState :=
  processRowsSt hasSp hasVa S P ⟨rows, []⟩ (List.range rows.length)

/-- The outcome of one service call as its caller classifies it:
an exception is never a success, a reply is a success exactly when it
decodes to a list of positive length. -/
def decodeService : ServiceReply → Option (List Cell)
  | ServiceReply.raises => none
  | ServiceReply.reply r => decodeReply r

theorem parse_varieties_with_regex_ne_nil (v : Cell) :
    parse_varieties_with_regex v ≠ [] := by
  cases v <;> dsimp only [parse_varieties_with_regex] <;> try simp
  split
  · simp
  · split
    · simp
    · simp

theorem binomSplit_ne_nil (t : List Char) (sl : List String) :
    binomSplit t sl ≠ [] := by
  dsimp only [binomSplit]
  split
  · rename_i hm
    split
    · rename_i hv
      simp only [ne_eq, List.map_eq_nil_iff]
      intro hc
      rw [hc] at hv
      simp at hv
    · rename_i hv
      simp only [ne_eq, List.map_eq_nil_iff]
      intro hc
      rw [hc] at hm
      simp at hm
  · simp

theorem split_latin_species_fallback_ne_nil (v : Cell) (sl : List String) :
    split_latin_species_fallback v sl ≠ [] := by
  cases v <;> dsimp only [split_latin_species_fallback] <;> try simp
  split
  · simp
  · split
    · split
      · rename_i hl
        simp only [ne_eq, List.map_eq_nil_iff]
        intro hc
        rw [hc] at hl
        simp at hl
      · exact binomSplit_ne_nil _ _
    · exact binomSplit_ne_nil _ _

theorem parse_varieties_ne_nil (v : Cell) (client : Option Client) :
    parse_varieties v client ≠ [] := by
  cases v <;> dsimp only [parse_varieties] <;> try simp
  split
  · simp
  · cases client with
    | none => exact parse_varieties_with_regex_ne_nil _
    | some cl =>
      dsimp only
      split
      · rename_i hcond
        exact hcond.1
      · exact parse_varieties_with_regex_ne_nil _

theorem split_latin_species_ne_nil (v : Cell) (sl : List String) (client : Option Client) :
    split_latin_species v sl client ≠ [] := by
  cases v <;> dsimp only [split_latin_species] <;> try simp
  split
  · simp
  · cases client with
    | none => exact split_latin_species_fallback_ne_nil _ _
    | some cl =>
      dsimp only
      split
      · rename_i hcond
        exact hcond.1
      · exact split_latin_species_fallback_ne_nil _ _

/-- Claim C2: for every cell value (missing, non-string, empty,
whitespace-only or arbitrary text) and for any resolver behaviour
(absent, raising, or replying with any string), the two orchestrators
`parse_varieties` and `split_latin_species` return a non-empty list.
They are total Lean functions, which embeds the never-raises half of the
claim: every exception of the service is a `ServiceReply.raises` value
that the embedded control flow consumes. -/
theorem claim_C2_orchestrators_total_nonempty :
    ∀ (v : Cell) (client : Option Client) (sl : List String),
      parse_varieties v client ≠ [] ∧ split_latin_species v sl client ≠ [] :=
  fun v client sl =>
    ⟨parse_varieties_ne_nil v client, split_latin_species_ne_nil v sl client⟩

/-- Claim C8: on the documented example, the deterministic variety
segmenter returns exactly the three numbered fragments; the primary rule
finds exactly three raw matches, and the free text before the first
numbered entry is in none of them. -/
theorem claim_C8_example_three_varieties :
    parse_varieties_with_regex (Cell.cstr "Dolidos lablab Brachiaria nuzzizensis. 1. Lanet cocotype 2. Bisia ecohype 3. Kisia ecolipe")
      = [Cell.cstr "1. Lanet cocotype", Cell.cstr "2. Bisia ecohype", Cell.cstr "3. Kisia ecolipe"]
    ∧ (findA (pyStripL ("Dolidos lablab Brachiaria nuzzizensis. 1. Lanet cocotype 2. Bisia ecohype 3. Kisia ecolipe").data)).length = 3 := by
  constructor
  · rfl
  · rfl

/-- Counterexample to claim C4: on "1. A 2. B: x" the after-colon
substring "x" yields no fragments under either rule, yet the segmenter
does not return the whole text as a single fragment: it rescans the whole
text (before-colon part included) and splits it in two. -/
theorem claim_C4_counterexample :
    truthy (extract_numbered_varieties (pyStripL (colonTail (pyStripL ("1. A 2. B: x").data)))) = false
    ∧ parse_varieties_with_regex (Cell.cstr "1. A 2. B: x")
        = [Cell.cstr "1. A", Cell.cstr "2. B: x"]
    ∧ parse_varieties_with_regex (Cell.cstr "1. A 2. B: x")
        ≠ [Cell.cstr "1. A 2. B: x"] := by
  refine ⟨rfl, rfl, ?_⟩
  decide

/-- Counterexample to claim C5: the species text "a," splits on the comma
into two trimmed pieces of which only one is non-empty, yet the fallback
returns both pieces, one of them the empty string — the source tests the
number of pieces, not the number of non-empty pieces. -/
theorem claim_C5_counterexample :
    split_latin_species_fallback (Cell.cstr "a,") []
        = [Cell.cstr "a", Cell.cstr ""]
    ∧ (Cell.cstr "") ∈ split_latin_species_fallback (Cell.cstr "a,") []
    ∧ ((splitOnChar ',' (pyStripL ("a,").data)).map (fun p => toStr (pyStripL p))).countP
        (fun p => p ≠ "") = 1 := by
  refine ⟨rfl, ?_, rfl⟩
  decide

/-- Counterexample to claim C7: a service reply "[1]" decodes to the
non-empty list [1] whose element is not a string, yet the resolver treats
it as a success and the orchestrator returns it — the source checks only
that the decoded value is a non-empty list, not that its elements are
strings. -/
theorem claim_C7_counterexample :
    parse_varieties (Cell.cstr "x")
        (some ⟨fun _ => ServiceReply.reply "[1]", fun _ _ => ServiceReply.raises⟩)
      = [Cell.cint 1]
    ∧ Cell.isStr (Cell.cint 1) = false := by
  refine ⟨rfl, rfl⟩

theorem flatMap_const_length {α β : Type} (l : List α) (f : α → List β) (c : Nat)
    (hf : ∀ x ∈ l, (f x).length = c) : (l.flatMap f).length = l.length * c := by
  induction l with
  | nil => simp
  | cons a l ih =>
    rw [List.flatMap_cons, List.length_append, hf a (List.mem_cons_self a l),
        ih (fun x hx => hf x (List.mem_cons_of_mem a hx)), List.length_cons,
        Nat.succ_mul, Nat.add_comm]

/-- The length of the per-row output: always the product of the
fragment counts of the two columns, a factor being 1 for an absent
column.  This holds branch by branch because the source's test for one
fragment emits exactly one row and its loops emit one row per fragment. -/
theorem processRow_length (hasSp hasVa : Bool) (S P : Cell → List Cell) (r : Row)
    (h : (hasSp || hasVa) = true) :
    (processRow hasSp hasVa S P r).length =
      (if hasSp then (S r.sp).length else 1) * (if hasVa then (P r.va).length else 1) := by
  cases hasSp with
  | false =>
    cases hasVa with
    | false => simp at h
    | true =>
      simp only [processRow, Bool.false_eq_true, if_false, if_true]
      split
      · rename_i hv
        simp [hv]
      · simp
  | true =>
    cases hasVa with
    | false =>
      simp only [processRow, Bool.false_eq_true, if_false, if_true]
      split
      · rename_i hs
        simp [hs]
      · rw [flatMap_const_length (S r.sp)
          (fun sp => [({ r with sp := sp } : Row)]) 1 (fun x _ => rfl)]
    | true =>
      simp only [processRow, if_true]
      split
      · rename_i hs
        rw [hs, Nat.one_mul]
        split
        · rename_i hv
          simp [hv]
        · simp
      · rw [flatMap_const_length (S r.sp)
          (fun sp => if (P r.va).length = 1 then [({ r with sp := sp } : Row)]
                     else (P r.va).map (fun v => ({ r with sp := sp, va := v } : Row)))
          (P r.va).length ?_]
        intro x _
        dsimp only
        split
        · rename_i hv
          simp [hv]
        · simp

theorem processRows_length (hasSp hasVa : Bool) (S P : Cell → List Cell) (rows : List Row)
    (h : (hasSp || hasVa) = true) :
    (processRows hasSp hasVa S P rows).length =
      (rows.map (fun r =>
        (if hasSp then (S r.sp).length else 1) *
        (if hasVa then (P r.va).length else 1))).sum := by
  rw [processRows, List.length_flatMap]
  exact congrArg List.sum
    (List.map_congr_left (fun r _ => processRow_length hasSp hasVa S P r h))

/-- Claim C1: with the probabilistic resolver absent or a fixed
deterministic function (any value of `client`), the row count emitted by
`process_excel_file` on a table that passed the column check equals the
sum over input rows of the product of the two fragment counts, an absent
column contributing factor 1; with the program's resolution functions
each factor is at least 1, so the output has at least as many rows as the
input. -/
theorem claim_C1_row_count (t : Table) (sl : List String) (client : Option Client)
    (h : (t.hasSp || t.hasVa) = true) :
    (process_excel_file (Except.ok t) false
        (fun c => split_latin_species c sl client) (fun c => parse_varieties c client)).2.length
      = (t.rows.map (fun r =>
          (if t.hasSp then (split_latin_species r.sp sl client).length else 1) *
          (if t.hasVa then (parse_varieties r.va client).length else 1))).sum
    ∧ t.rows.length ≤ (process_excel_file (Except.ok t) false
        (fun c => split_latin_species c sl client) (fun c => parse_varieties c client)).2.length := by
  have hout : (process_excel_file (Except.ok t) false
      (fun c => split_latin_species c sl client) (fun c => parse_varieties c client)).2
      = processRows t.hasSp t.hasVa
          (fun c => split_latin_species c sl client) (fun c => parse_varieties c client) t.rows := by
    simp [process_excel_file, h]
  rw [hout, processRows_length _ _ _ _ _ h]
  refine ⟨rfl, ?_⟩
  have hone : ∀ x ∈ t.rows.map (fun r =>
      (if t.hasSp then (split_latin_species r.sp sl client).length else 1) *
      (if t.hasVa then (parse_varieties r.va client).length else 1)), 1 ≤ x := by
    intro x hx
    rw [List.mem_map] at hx
    obtain ⟨r, _, hfx⟩ := hx
    have h1 : 1 ≤ if t.hasSp then (split_latin_species r.sp sl client).length else 1 := by
      split
      · exact List.length_pos.mpr (split_latin_species_ne_nil r.sp sl client)
      · exact Nat.le_refl 1
    have h2 : 1 ≤ if t.hasVa then (parse_varieties r.va client).length else 1 := by
      split
      · exact List.length_pos.mpr (parse_varieties_ne_nil r.va client)
      · exact Nat.le_refl 1
    rw [← hfx]
    exact Nat.mul_le_mul h1 h2
  calc t.rows.length
      = (t.rows.map (fun r =>
          (if t.hasSp then (split_latin_species r.sp sl client).length else 1) *
          (if t.hasVa then (parse_varieties r.va client).length else 1))).length := by
        rw [List.length_map]
    _ ≤ _ := List.length_le_sum_of_one_le _ hone

/-- Claim C3: every emitted row comes from a source row with which it
agrees on all columns other than the two processed ones; a column whose
resolution has exactly one fragment keeps the source cell unchanged, and
a column whose resolution has several fragments carries one of those
fragments; an absent column is never touched. -/
theorem claim_C3_frame (hasSp hasVa : Bool) (S P : Cell → List Cell)
    (rows : List Row) (r2 : Row)
    (h0 : (hasSp || hasVa) = true)
    (h : r2 ∈ processRows hasSp hasVa S P rows) :
    ∃ r ∈ rows,
      r2.rest = r.rest
      ∧ (hasSp = true →
          ((S r.sp).length = 1 → r2.sp = r.sp) ∧ ((S r.sp).length ≠ 1 → r2.sp ∈ S r.sp))
      ∧ (hasSp = false → r2.sp = r.sp)
      ∧ (hasVa = true →
          ((P r.va).length = 1 → r2.va = r.va) ∧ ((P r.va).length ≠ 1 → r2.va ∈ P r.va))
      ∧ (hasVa = false → r2.va = r.va) := by
  rw [processRows, List.mem_flatMap] at h
  obtain ⟨r, hr, hmem⟩ := h
  refine ⟨r, hr, ?_⟩
  cases hasSp with
  | false =>
    cases hasVa with
    | false => simp at h0
    | true =>
      simp only [processRow, Bool.false_eq_true, if_false, if_true] at hmem
      split at hmem
      · rename_i hv
        rw [List.mem_singleton] at hmem
        subst hmem
        simp [hv]
      · rename_i hv
        rw [List.mem_map] at hmem
        obtain ⟨v, hvmem, hr2⟩ := hmem
        subst hr2
        simp [hv, hvmem]
  | true =>
    cases hasVa with
    | false =>
      simp only [processRow, Bool.false_eq_true, if_false, if_true] at hmem
      split at hmem
      · rename_i hs
        rw [List.mem_singleton] at hmem
        subst hmem
        simp [hs]
      · rename_i hs
        rw [List.mem_flatMap] at hmem
        obtain ⟨sp, hspmem, hin⟩ := hmem
        rw [List.mem_singleton] at hin
        subst hin
        simp [hs, hspmem]
    | true =>
      simp only [processRow, if_true] at hmem
      split at hmem
      · rename_i hs
        split at hmem
        · rename_i hv
          rw [List.mem_singleton] at hmem
          subst hmem
          simp [hs, hv]
        · rename_i hv
          rw [List.mem_map] at hmem
          obtain ⟨v, hvmem, hr2⟩ := hmem
          subst hr2
          simp [hs, hv, hvmem]
      · rename_i hs
        rw [List.mem_flatMap] at hmem
        obtain ⟨sp, hspmem, hin⟩ := hmem
        split at hin
        · rename_i hv
          rw [List.mem_singleton] at hin
          subst hin
          simp [hs, hv, hspmem]
        · rename_i hv
          rw [List.mem_map] at hin
          obtain ⟨v, hvmem, hr2⟩ := hin
          subst hr2
          simp [hs, hv, hspmem, hvmem]

/-- Claim C9: the CLI exits with 0 exactly when processing succeeds
(readable input, at least one recognised column, write succeeded); a
missing input file, a table with neither recognised column, and any other
exception each produce exit status 1. -/
theorem claim_C9_exit_codes (t : Table) (wf : Bool) (S P : Cell → List Cell) :
    (mainExitCode (Except.ok t) false S P = 0 ↔ (t.hasSp || t.hasVa) = true)
    ∧ mainExitCode (Except.error PyExc.fileNotFound) wf S P = 1
    ∧ mainExitCode (Except.error PyExc.otherError) wf S P = 1
    ∧ ((t.hasSp || t.hasVa) = false → mainExitCode (Except.ok t) wf S P = 1)
    ∧ (wf = true → mainExitCode (Except.ok t) wf S P = 1) := by
  refine ⟨?_, rfl, rfl, ?_, ?_⟩
  · by_cases hc : (t.hasSp || t.hasVa) = true
    · simp [mainExitCode, process_excel_file, hc]
    · simp [mainExitCode, process_excel_file, hc]
  · intro hc
    simp [mainExitCode, process_excel_file, hc]
  · intro hw
    subst hw
    by_cases hc : (t.hasSp || t.hasVa) = true
    · simp [mainExitCode, process_excel_file, hc]
    · simp [mainExitCode, process_excel_file, hc]

theorem splitOnChar_ne_nil (sep : Char) (t : List Char) : splitOnChar sep t ≠ [] := by
  induction t with
  | nil => simp [splitOnChar]
  | cons c rest ih =>
    simp only [splitOnChar]
    split
    · simp
    · split <;> simp

theorem two_le_splitOnChar_length (sep : Char) (t : List Char)
    (h : t.contains sep = true) : 2 ≤ (splitOnChar sep t).length := by
  induction t with
  | nil => simp at h
  | cons c rest ih =>
    simp only [splitOnChar]
    split
    · have h1 : (splitOnChar sep rest).length ≠ 0 :=
        fun h0 => splitOnChar_ne_nil sep rest (List.length_eq_zero.mp h0)
      simp only [List.length_cons]
      omega
    · rename_i hc
      have hr : rest.contains sep = true := by
        simp only [List.contains_cons, Bool.or_eq_true, beq_iff_eq] at h
        rcases h with h | h
        · exact absurd h.symm hc
        · exact h
      have h2 := ih hr
      split
      · rename_i p ps hps
        rw [hps] at h2
        simp only [List.length_cons] at h2 ⊢
        omega
      · rename_i hps
        exact absurd hps (splitOnChar_ne_nil sep rest)

/-- Claim C5 as amended: for every species text whose stripped form
contains a comma, the fallback returns the comma-split, trimmed pieces
unconditionally (a comma always yields at least two pieces, so the
source's piece-count test always passes); the pieces are not filtered for
non-emptiness, so empty fragments can be returned. -/
theorem claim_C5_amended (s : String) (sl : List String)
    (hc : (pyStripL s.data).contains ',' = true) :
    split_latin_species_fallback (Cell.cstr s) sl
      = (splitOnChar ',' (pyStripL s.data)).map
          (fun p => Cell.cstr (toStr (pyStripL p))) := by
  have hne : ¬pyStripL s.data = [] := by
    intro h0
    rw [h0] at hc
    simp at hc
  have hlen : ((splitOnChar ',' (pyStripL s.data)).map
      (fun p => toStr (pyStripL p))).length > 1 := by
    rw [List.length_map]
    have := two_le_splitOnChar_length ',' (pyStripL s.data) hc
    omega
  dsimp only [split_latin_species_fallback]
  rw [if_neg hne, if_pos hc, if_pos hlen, List.map_map]
  rfl

theorem findBinom_nil : findBinom [] = [] := rfl

/-- Claim C6: on a comma-free species text where the binomial pattern has
at least two matches, the fallback returns the matches present in the
reference list when at least two of them are, and otherwise all matches;
in both cases at least two fragments come back, and when no match is in
the reference list all matches are returned — the reference list never
narrows the result below two fragments. -/
theorem claim_C6_reference_advisory (s : String) (sl : List String)
    (hc : (pyStripL s.data).contains ',' = false)
    (hm : 1 < ((findBinom (pyStripL s.data)).map toStr).length) :
    (split_latin_species_fallback (Cell.cstr s) sl
      = (if 1 < (((findBinom (pyStripL s.data)).map toStr).filter
            (fun m => sl.contains m)).length
         then (((findBinom (pyStripL s.data)).map toStr).filter
            (fun m => sl.contains m)).map Cell.cstr
         else ((findBinom (pyStripL s.data)).map toStr).map Cell.cstr))
    ∧ 1 < (split_latin_species_fallback (Cell.cstr s) sl).length
    ∧ ((((findBinom (pyStripL s.data)).map toStr).filter (fun m => sl.contains m)) = []
        → split_latin_species_fallback (Cell.cstr s) sl
            = ((findBinom (pyStripL s.data)).map toStr).map Cell.cstr) := by
  have hne : ¬pyStripL s.data = [] := by
    intro h0
    rw [h0] at hm
    simp [findBinom_nil] at hm
  have heq : split_latin_species_fallback (Cell.cstr s) sl
      = binomSplit (pyStripL s.data) sl := by
    dsimp only [split_latin_species_fallback]
    rw [if_neg hne, if_neg (by rw [hc]; simp)]
  have hbin : binomSplit (pyStripL s.data) sl
      = (if 1 < (((findBinom (pyStripL s.data)).map toStr).filter
            (fun m => sl.contains m)).length
         then (((findBinom (pyStripL s.data)).map toStr).filter
            (fun m => sl.contains m)).map Cell.cstr
         else ((findBinom (pyStripL s.data)).map toStr).map Cell.cstr) := by
    dsimp only [binomSplit]
    rw [if_pos hm]
  refine ⟨heq.trans hbin, ?_, ?_⟩
  · rw [heq, hbin]
    split
    · rename_i hv
      rw [List.length_map]
      exact hv
    · rw [List.length_map, List.length_map]
      rw [List.length_map] at hm
      exact hm
  · intro hnil
    rw [heq, hbin, if_neg (by rw [hnil]; simp)]

/-- Claim C4 as amended: for a variety text containing a colon, fragments
are first sought in the substring after the first colon; when neither
rule yields a truthy result there, both rules are retried on the whole
normalized text (the part before the colon included), and only when that
also fails is the whole text returned as the single fragment. -/
theorem claim_C4_amended (s : String)
    (hc : (pyStripL s.data).contains ':' = true)
    (hfail : truthy (extract_numbered_varieties
        (pyStripL (colonTail (pyStripL s.data)))) = false) :
    parse_varieties_with_regex (Cell.cstr s)
      = (match extract_numbered_varieties (pyStripL s.data) with
         | some (a :: as) => (a :: as).map Cell.cstr
         | _ => [Cell.cstr (toStr (pyStripL s.data))]) := by
  dsimp only [parse_varieties_with_regex]
  rw [if_pos hc]
  cases hE : extract_numbered_varieties (pyStripL (colonTail (pyStripL s.data))) with
  | none => rfl
  | some l =>
    cases l with
    | nil => rfl
    | cons a as =>
      rw [hE] at hfail
      simp [truthy] at hfail

theorem dropWhile_dropWhile (p : Char → Bool) (l : List Char) :
    (l.dropWhile p).dropWhile p = l.dropWhile p := by
  induction l with
  | nil => rfl
  | cons a l ih =>
    rw [List.dropWhile_cons]
    split
    · exact ih
    · rename_i ha
      rw [List.dropWhile_cons, if_neg ha]

theorem head?_dropWhile (p : Char → Bool) (l : List Char) (c : Char)
    (h : (l.dropWhile p).head? = some c) : p c = false := by
  induction l with
  | nil => simp at h
  | cons a l ih =>
    rw [List.dropWhile_cons] at h
    split at h
    · exact ih h
    · rename_i ha
      simp only [List.head?_cons, Option.some_inj] at h
      subst h
      simpa using ha

theorem dropWhile_eq_self_of_head (p : Char → Bool) (l : List Char)
    (h : ∀ c, l.head? = some c → p c = false) : l.dropWhile p = l := by
  cases l with
  | nil => rfl
  | cons a l =>
    have ha := h a rfl
    rw [List.dropWhile_cons, if_neg (by simp [ha])]

theorem getLast?_dropWhile (p : Char → Bool) (l : List Char)
    (hne : l.dropWhile p ≠ []) : (l.dropWhile p).getLast? = l.getLast? := by
  induction l with
  | nil => simp at hne
  | cons a l ih =>
    by_cases ha : p a
    · rw [List.dropWhile_cons, if_pos ha] at hne ⊢
      have hlne : l ≠ [] := by
        intro h0
        rw [h0] at hne
        simp at hne
      rw [ih hne]
      cases l with
      | nil => simp at hlne
      | cons b l2 => rw [List.getLast?_cons_cons]
    · rw [List.dropWhile_cons, if_neg ha]

theorem pyStripL_idem (t : List Char) : pyStripL (pyStripL t) = pyStripL t := by
  unfold pyStripL
  by_cases hBnil : (t.dropWhile isSpaceChar).reverse.dropWhile isSpaceChar = []
  · rw [hBnil]
    simp
  · have h1 : ((t.dropWhile isSpaceChar).reverse.dropWhile isSpaceChar).reverse.dropWhile
        isSpaceChar
        = ((t.dropWhile isSpaceChar).reverse.dropWhile isSpaceChar).reverse := by
      apply dropWhile_eq_self_of_head
      intro c hc
      rw [List.head?_reverse] at hc
      rw [getLast?_dropWhile isSpaceChar _ hBnil, List.getLast?_reverse] at hc
      exact head?_dropWhile isSpaceChar t c hc
    rw [h1, List.reverse_reverse, dropWhile_dropWhile]

theorem pyStrip_idem (s : String) : pyStrip (pyStrip s) = pyStrip s :=
  congrArg toStr (pyStripL_idem s.data)

/-- Re-stripping an already stripped cell does not change the resolver
call: the source strips in the orchestrator and again in the resolver. -/
theorem openai_strip (s : String) (svc : String → ServiceReply) :
    parse_varieties_with_openai (Cell.cstr (pyStrip s)) svc
      = parse_varieties_with_openai (Cell.cstr s) svc := by
  dsimp only [parse_varieties_with_openai]
  rw [pyStrip_idem]

theorem species_ai_strip (s : String) (sl : List String)
    (svc : String → List String → ServiceReply) :
    split_latin_species_with_ai (Cell.cstr (pyStrip s)) sl svc
      = split_latin_species_with_ai (Cell.cstr s) sl svc := by
  dsimp only [split_latin_species_with_ai]
  rw [pyStrip_idem]

theorem accept_ne_nil (l0 : List JAtom) (l : List Cell)
    (h : (if l0.length > 0 then some (l0.map toCell) else none) = some l) : l ≠ [] := by
  split at h
  · rename_i hpos
    injection h with h2
    intro hnil
    rw [← h2, List.map_eq_nil_iff] at hnil
    simp [hnil] at hpos
  · simp at h

/-- A decoded success is always a non-empty list: both decode sites of
the source guard the returned list with a positive length test. -/
theorem decodeReply_some_ne_nil (r : String) (l : List Cell)
    (h : decodeReply r = some l) : l ≠ [] := by
  dsimp only [decodeReply] at h
  split at h
  · exact accept_ne_nil _ _ h
  · simp at h
  · split at h
    · split at h
      · exact accept_ne_nil _ _ h
      · simp at h
    · simp at h

/-- Claim C7 as amended: a service reply is a success only when it
decodes — directly, or from a bracketed array substring of the reply — to
a non-empty list (its elements need not be strings: the source checks
only that the decoded value is a list of positive length); a service
exception or any failing decode is caught, never propagated, the resolver
then returns the unchanged-input singleton and the orchestrator falls
back to the deterministic segmenter for that cell.  Both resolver/
orchestrator pairs behave this way. -/
theorem claim_C7_amended (s : String) (sl : List String) (cl : Client)
    (h : pyStrip s ≠ "") :
    ((∃ l, decodeService (cl.varietyReply (pyStrip s)) = some l ∧ l ≠ []
        ∧ parse_varieties_with_openai (Cell.cstr s) cl.varietyReply = l)
      ∨ (decodeService (cl.varietyReply (pyStrip s)) = none
        ∧ parse_varieties_with_openai (Cell.cstr s) cl.varietyReply
            = [Cell.cstr (pyStrip s)]
        ∧ parse_varieties (Cell.cstr s) (some cl)
            = parse_varieties_with_regex (Cell.cstr (pyStrip s))))
    ∧ ((∃ l, decodeService (cl.speciesReply (pyStrip s) (sl.take 20)) = some l ∧ l ≠ []
        ∧ split_latin_species_with_ai (Cell.cstr s) sl cl.speciesReply = l)
      ∨ (decodeService (cl.speciesReply (pyStrip s) (sl.take 20)) = none
        ∧ split_latin_species_with_ai (Cell.cstr s) sl cl.speciesReply
            = [Cell.cstr (pyStrip s)]
        ∧ split_latin_species (Cell.cstr s) sl (some cl)
            = split_latin_species_fallback (Cell.cstr (pyStrip s)) sl)) := by
  have hopen : parse_varieties_with_openai (Cell.cstr s) cl.varietyReply
      = (match cl.varietyReply (pyStrip s) with
         | ServiceReply.raises => [Cell.cstr (pyStrip s)]
         | ServiceReply.reply r =>
           match decodeReply r with
           | some l => l
           | none => [Cell.cstr (pyStrip s)]) := by
    dsimp only [parse_varieties_with_openai]
    rw [if_neg h]
  have hspec : split_latin_species_with_ai (Cell.cstr s) sl cl.speciesReply
      = (match cl.speciesReply (pyStrip s) (sl.take 20) with
         | ServiceReply.raises => [Cell.cstr (pyStrip s)]
         | ServiceReply.reply r =>
           match decodeReply r with
           | some l => l
           | none => [Cell.cstr (pyStrip s)]) := by
    dsimp only [split_latin_species_with_ai]
    rw [if_neg h]
  constructor
  · have hfall : parse_varieties_with_openai (Cell.cstr s) cl.varietyReply
          = [Cell.cstr (pyStrip s)]
        → parse_varieties (Cell.cstr s) (some cl)
          = parse_varieties_with_regex (Cell.cstr (pyStrip s)) := by
      intro hres
      dsimp only [parse_varieties]
      rw [if_neg h]
      rw [openai_strip s cl.varietyReply, hres]
      simp
    cases hsvc : cl.varietyReply (pyStrip s) with
    | raises =>
      right
      have ho : parse_varieties_with_openai (Cell.cstr s) cl.varietyReply
          = [Cell.cstr (pyStrip s)] := by
        rw [hopen, hsvc]
      exact ⟨rfl, ho, hfall ho⟩
    | reply r =>
      cases hdec : decodeReply r with
      | none =>
        right
        have ho : parse_varieties_with_openai (Cell.cstr s) cl.varietyReply
            = [Cell.cstr (pyStrip s)] := by
          rw [hopen, hsvc]
          show (match decodeReply r with
                | some l2 => l2
                | none => [Cell.cstr (pyStrip s)]) = [Cell.cstr (pyStrip s)]
          rw [hdec]
        exact ⟨hdec, ho, hfall ho⟩
      | some l =>
        left
        have ho : parse_varieties_with_openai (Cell.cstr s) cl.varietyReply = l := by
          rw [hopen, hsvc]
          show (match decodeReply r with
                | some l2 => l2
                | none => [Cell.cstr (pyStrip s)]) = l
          rw [hdec]
        exact ⟨l, hdec, decodeReply_some_ne_nil r l hdec, ho⟩
  · have hfall : split_latin_species_with_ai (Cell.cstr s) sl cl.speciesReply
          = [Cell.cstr (pyStrip s)]
        → split_latin_species (Cell.cstr s) sl (some cl)
          = split_latin_species_fallback (Cell.cstr (pyStrip s)) sl := by
      intro hres
      dsimp only [split_latin_species]
      rw [if_neg h]
      rw [species_ai_strip s sl cl.speciesReply, hres]
      simp
    cases hsvc : cl.speciesReply (pyStrip s) (sl.take 20) with
    | raises =>
      right
      have ho : split_latin_species_with_ai (Cell.cstr s) sl cl.speciesReply
          = [Cell.cstr (pyStrip s)] := by
        rw [hspec, hsvc]
      exact ⟨rfl, ho, hfall ho⟩
    | reply r =>
      cases hdec : decodeReply r with
      | none =>
        right
        have ho : split_latin_species_with_ai (Cell.cstr s) sl cl.speciesReply
            = [Cell.cstr (pyStrip s)] := by
          rw [hspec, hsvc]
          show (match decodeReply r with
                | some l2 => l2
                | none => [Cell.cstr (pyStrip s)]) = [Cell.cstr (pyStrip s)]
          rw [hdec]
        exact ⟨hdec, ho, hfall ho⟩
      | some l =>
        left
        have ho : split_latin_species_with_ai (Cell.cstr s) sl cl.speciesReply = l := by
          rw [hspec, hsvc]
          show (match decodeReply r with
                | some l2 => l2
                | none => [Cell.cstr (pyStrip s)]) = l
          rw [hdec]
        exact ⟨l, hdec, decodeReply_some_ne_nil r l hdec, ho⟩

/-
No-mutation argument: every in-place write of the loop targets the id
handed out by the `row.copy()` just before it — the length of the heap at
allocation time — which is at least the number of input rows, so the
input prefix of the heap is never written.
-/

theorem heap_step_get? (heap : List Row) (r0 y : Row) (k : Nat) (hk : k < heap.length) :
    ((heap ++ [r0]).set heap.length y)[k]? = heap[k]? := by
  rw [List.getElem?_set_ne (by omega : heap.length ≠ k), List.getElem?_append]
  simp [hk]

theorem heap_step_len (heap : List Row) (r0 y : Row) :
    ((heap ++ [r0]).set heap.length y).length = heap.length + 1 := by
  rw [List.length_set, List.length_append, List.length_singleton]

theorem heap_step2_get? (heap : List Row) (r0 x y : Row) (k : Nat) (hk : k < heap.length) :
    (((heap ++ [r0]).set heap.length x).set heap.length y)[k]? = heap[k]? := by
  rw [List.getElem?_set_ne (by omega : heap.length ≠ k)]
  exact heap_step_get? heap r0 x k hk

theorem heap_step2_len (heap : List Row) (r0 x y : Row) :
    (((heap ++ [r0]).set heap.length x).set heap.length y).length = heap.length + 1 := by
  rw [List.length_set]
  exact heap_step_len heap r0 x

theorem foldl_preserves {α : Type} (f : PState → α → PState) (n : Nat)
    (hf : ∀ st a, n ≤ st.heap.length →
      n ≤ (f st a).heap.length ∧ ∀ k, k < n → (f st a).heap[k]? = st.heap[k]?) :
    ∀ (l : List α) (st : PState), n ≤ st.heap.length →
      n ≤ (l.foldl f st).heap.length ∧
      ∀ k, k < n → (l.foldl f st).heap[k]? = st.heap[k]? := by
  intro l
  induction l with
  | nil => exact fun st h => ⟨h, fun k _ => rfl⟩
  | cons a l ih =>
    intro st h
    obtain ⟨h1, h2⟩ := hf st a h
    obtain ⟨h3, h4⟩ := ih (f st a) h1
    exact ⟨h3, fun k hk => (h4 k hk).trans (h2 k hk)⟩

theorem processRowSt_preserves (hasSp hasVa : Bool) (S P : Cell → List Cell) (i n : Nat)
    (st : PState) (hst : n ≤ st.heap.length) :
    n ≤ (processRowSt hasSp hasVa S P st i).heap.length ∧
    ∀ k, k < n → (processRowSt hasSp hasVa S P st i).heap[k]? = st.heap[k]? := by
  have hstep1 : ∀ (acc : PState) (r0 y : Row), n ≤ acc.heap.length →
      n ≤ ((acc.heap ++ [r0]).set acc.heap.length y).length ∧
      ∀ k, k < n → ((acc.heap ++ [r0]).set acc.heap.length y)[k]? = acc.heap[k]? := by
    intro acc r0 y hacc
    refine ⟨by rw [heap_step_len]; omega, fun k hk => heap_step_get? _ _ _ k (by omega)⟩
  have hstep2 : ∀ (acc : PState) (r0 x y : Row), n ≤ acc.heap.length →
      n ≤ (((acc.heap ++ [r0]).set acc.heap.length x).set acc.heap.length y).length ∧
      ∀ k, k < n →
        (((acc.heap ++ [r0]).set acc.heap.length x).set acc.heap.length y)[k]?
          = acc.heap[k]? := by
    intro acc r0 x y hacc
    refine ⟨by rw [heap_step2_len]; omega, fun k hk => heap_step2_get? _ _ _ _ k (by omega)⟩
  dsimp only [processRowSt]
  split
  · split
    · split
      · split
        · exact ⟨hst, fun k _ => rfl⟩
        · apply foldl_preserves _ n ?_ _ st hst
          intro acc v hacc
          dsimp only [allocRow, setVa, emit, heapGet]
          exact hstep1 acc _ _ hacc
      · exact ⟨hst, fun k _ => rfl⟩
    · apply foldl_preserves _ n ?_ _ st hst
      intro acc sp hacc
      split
      · split
        · dsimp only [allocRow, setSp, emit, heapGet]
          exact hstep1 acc _ _ hacc
        · apply foldl_preserves _ n ?_ _ acc hacc
          intro acc2 v hacc2
          dsimp only [allocRow, setSp, setVa, emit, heapGet]
          exact hstep2 acc2 _ _ _ hacc2
      · dsimp only [allocRow, setSp, emit, heapGet]
        exact hstep1 acc _ _ hacc
  · split
    · exact ⟨hst, fun k _ => rfl⟩
    · apply foldl_preserves _ n ?_ _ st hst
      intro acc v hacc
      dsimp only [allocRow, setVa, emit, heapGet]
      exact hstep1 acc _ _ hacc

theorem processRowsSt_preserves (hasSp hasVa : Bool) (S P : Cell → List Cell) (n : Nat) :
    ∀ (ids : List Nat) (st : PState), n ≤ st.heap.length →
      n ≤ (processRowsSt hasSp hasVa S P st ids).heap.length ∧
      ∀ k, k < n → (processRowsSt hasSp hasVa S P st ids).heap[k]? = st.heap[k]? := by
  intro ids
  induction ids with
  | nil => exact fun st h => ⟨h, fun k _ => rfl⟩
  | cons i is ih =>
    intro st h
    obtain ⟨h1, h2⟩ := processRowSt_preserves hasSp hasVa S P i n st h
    obtain ⟨h3, h4⟩ := ih _ h1
    exact ⟨h3, fun k hk => (h4 k hk).trans (h2 k hk)⟩

/-- Claim C10: the loop never mutates the in-memory input: after the
whole run, every cell of every input row object still holds its original
value — each overwrite of a species or variety cell went to a row id
freshly allocated by `row.copy()`, never to an input row id. -/
theorem claim_C10_no_input_mutation (hasSp hasVa : Bool) (S P : Cell → List Cell)
    (rows : List Row) (k : Nat) (hk : k < rows.length) :
    (runProcess hasSp hasVa S P rows).heap[k]? = rows[k]? := by
  have h := processRowsSt_preserves hasSp hasVa S P rows.length
    (List.range rows.length) ⟨rows, []⟩ (Nat.le_refl _)
  exact h.2 k hk

theorem claim_C1_row_count_witness :
    ((true || true) = true)
    ∧ 1 ≤ (process_excel_file
        (Except.ok ⟨true, true, [⟨Cell.cstr "Aa bb Cc dd", Cell.cstr "1. x 2. y", []⟩]⟩)
        false (fun c => split_latin_species c [] none)
        (fun c => parse_varieties c none)).2.length :=
  ⟨rfl, (claim_C1_row_count
    ⟨true, true, [⟨Cell.cstr "Aa bb Cc dd", Cell.cstr "1. x 2. y", []⟩]⟩ [] none rfl).2⟩

theorem claim_C3_frame_witness :
    ((false || true) = true)
    ∧ (⟨Cell.na, Cell.cstr "a", []⟩ : Row) ∈ processRows false true
        (fun _ => []) (fun _ => [Cell.cstr "a", Cell.cstr "b"]) [⟨Cell.na, Cell.na, []⟩]
    ∧ ∃ r ∈ [(⟨Cell.na, Cell.na, []⟩ : Row)],
        (⟨Cell.na, Cell.cstr "a", []⟩ : Row).rest = r.rest := by
  refine ⟨rfl, by decide, ?_⟩
  obtain ⟨r, hr, hrest, _⟩ := claim_C3_frame false true
    (fun _ => []) (fun _ => [Cell.cstr "a", Cell.cstr "b"])
    [⟨Cell.na, Cell.na, []⟩] ⟨Cell.na, Cell.cstr "a", []⟩ rfl (by decide)
  exact ⟨r, hr, hrest⟩

theorem claim_C4_amended_witness :
    ((pyStripL ("1. A 2. B: x").data).contains ':' = true)
    ∧ (truthy (extract_numbered_varieties
        (pyStripL (colonTail (pyStripL ("1. A 2. B: x").data)))) = false)
    ∧ parse_varieties_with_regex (Cell.cstr "1. A 2. B: x")
        = (match extract_numbered_varieties (pyStripL ("1. A 2. B: x").data) with
           | some (a :: as) => (a :: as).map Cell.cstr
           | _ => [Cell.cstr (toStr (pyStripL ("1. A 2. B: x").data))]) :=
  ⟨rfl, rfl, claim_C4_amended "1. A 2. B: x" rfl rfl⟩

theorem claim_C5_amended_witness :
    ((pyStripL ("a,b").data).contains ',' = true)
    ∧ split_latin_species_fallback (Cell.cstr "a,b") []
        = (splitOnChar ',' (pyStripL ("a,b").data)).map
            (fun p => Cell.cstr (toStr (pyStripL p))) :=
  ⟨rfl, claim_C5_amended "a,b" [] rfl⟩

theorem claim_C6_reference_advisory_witness :
    ((pyStripL ("Aa bb Cc dd").data).contains ',' = false)
    ∧ (1 < ((findBinom (pyStripL ("Aa bb Cc dd").data)).map toStr).length)
    ∧ 1 < (split_latin_species_fallback (Cell.cstr "Aa bb Cc dd") []).length :=
  ⟨rfl, by decide,
    (claim_C6_reference_advisory "Aa bb Cc dd" [] rfl (by decide)).2.1⟩

theorem claim_C7_amended_witness :
    (pyStrip "x" ≠ "")
    ∧ parse_varieties (Cell.cstr "x")
        (some ⟨fun _ => ServiceReply.raises, fun _ _ => ServiceReply.raises⟩)
      = parse_varieties_with_regex (Cell.cstr (pyStrip "x")) := by
  refine ⟨by decide, ?_⟩
  obtain ⟨hva, _⟩ := claim_C7_amended "x" []
    ⟨fun _ => ServiceReply.raises, fun _ _ => ServiceReply.raises⟩ (by decide)
  rcases hva with ⟨l, hl, _, _⟩ | ⟨_, _, hfb⟩
  · exact absurd hl (by simp [decodeService])
  · exact hfb

theorem claim_C9_exit_codes_witness :
    mainExitCode (Except.error PyExc.fileNotFound) false
      (fun c => [c]) (fun c => [c]) = 1 :=
  (claim_C9_exit_codes ⟨true, true, []⟩ false (fun c => [c]) (fun c => [c])).2.1

theorem claim_C10_no_input_mutation_witness :
    (0 < [(⟨Cell.cstr "s", Cell.cstr "v", []⟩ : Row)].length)
    ∧ (runProcess true true
        (fun _ => [Cell.cstr "a", Cell.cstr "b"])
        (fun _ => [Cell.cstr "u", Cell.cstr "w"])
        [⟨Cell.cstr "s", Cell.cstr "v", []⟩]).heap[0]?
      = [(⟨Cell.cstr "s", Cell.cstr "v", []⟩ : Row)][0]? :=
  ⟨by decide, claim_C10_no_input_mutation true true
    (fun _ => [Cell.cstr "a", Cell.cstr "b"])
    (fun _ => [Cell.cstr "u", Cell.cstr "w"])
    [⟨Cell.cstr "s", Cell.cstr "v", []⟩] 0 (by decide)⟩

end ExcelProc
